import Mathlib

/-!
# Verification of the `libtzfile` TZif V1 decoder

Shallow embedding of `src/lib.rs` of the `rs-tzfile` crate.

Modelling conventions:
* Byte buffers (`&[u8]`) are `List UInt8`.
* Rust `usize` values are `Nat`; every `usize` addition and multiplication
  performed by the code is taken modulo `2 ^ 64` (release-mode wrapping
  semantics of a 64-bit target).
* A Rust panic (out-of-bounds slice index, failed `unwrap`) is modelled by
  `Option.none`: the function aborts and returns no value at all.
  `Tzfile::parse_header` returns `Result<Tzfile, Error>`, hence its model
  returns `Option (Except Error Tzfile)`; `Tzfile::parse` returns a plain
  `Tz` (its type has no error channel), hence its model returns `Option Tz`.
* `chrono` `DateTime<Utc>` values produced by `Utc.timestamp(v, 0)` are
  represented by the second count `v : Int` itself.  For any `i32` value
  the `chrono` construction succeeds and is injective in `v`, so equality
  statements transfer.
-/

/-- Word modulus of a 64-bit `usize`. -/
def USIZE : Nat := 2 ^ 64

/-- `static MAGIC: u32 = 0x545A6966;` -/
def MAGIC : Nat := 0x545A6966

/-- `static V1_HEADER_END: usize = 0x2C;` -/
def V1_HEADER_END : Nat := 0x2C

/-- The crate's error enum: its ONLY variant is `InvalidMagic`. -/
inductive Error where
  | InvalidMagic
deriving DecidableEq, Repr

/-- Rust slice indexing `&buffer[a..b]`: defined when `a ≤ b ∧ b ≤ len`,
otherwise the program panics (`none`). -/
def slice? (buffer : List UInt8) (a b : Nat) : Option (List UInt8) :=
  if a ≤ b ∧ b ≤ buffer.length then some ((buffer.drop a).take (b - a))
  else none

/-- `BE::read_u32` on a 4-byte slice: big-endian unsigned value. -/
def u32ofBytes (bs : List UInt8) : Nat :=
  (bs.getD 0 0).toNat * 2 ^ 24 + (bs.getD 1 0).toNat * 2 ^ 16 +
    (bs.getD 2 0).toNat * 2 ^ 8 + (bs.getD 3 0).toNat

/-- `BE::read_i32` on a 4-byte slice: big-endian two's-complement value. -/
def i32ofBytes (bs : List UInt8) : Int :=
  let u := u32ofBytes bs
  if u < 2 ^ 31 then (u : Int) else (u : Int) - 2 ^ 32

/-- The cast `v as usize` applied to an `i32` on a 64-bit target:
sign-extension, i.e. reduction of the signed value modulo `2 ^ 64`. -/
def usizeOfI32 (v : Int) : Nat :=
  (v % (USIZE : Int)).toNat

/-- `struct Tzfile` — the parsed header. -/
structure Tzfile where
  magic : Nat
  version : UInt8
  tzh_ttisgmtcnt : Nat
  tzh_ttisstdcnt : Nat
  tzh_leapcnt : Nat
  tzh_timecnt : Nat
  tzh_typecnt : Nat
  tzh_charcnt : Nat
deriving DecidableEq, Repr

/-- `struct Ttinfo` — one decoded transition-type record. -/
structure Ttinfo where
  tt_gmtoff : Int
  tt_isdst : UInt8
  tt_abbrind : UInt8
deriving DecidableEq, Repr

/-- Decoding of one 6-byte type record, exactly as the `chunks_exact(6)`
closure in `Tzfile::parse` does it: 4-byte big-endian signed offset, raw
DST byte, and the sixth byte divided by 4 (`u8` integer division). -/
def Ttinfo.ofBytes (tti : List UInt8) : Ttinfo :=
  { tt_gmtoff := i32ofBytes (tti.take 4)
    tt_isdst := tti.getD 4 0
    tt_abbrind := (tti.getD 5 0) / 4 }

/-- `struct Tz` — the decoded result.  `tzh_timecnt_data` holds the Unix
second counts of the `DateTime<Utc>` values (see the header comment). -/
structure Tz where
  tzh_timecnt_data : List Int
  tzh_timecnt_indices : List UInt8
  tzh_typecnt : List Ttinfo
  tz_abbr : List (List UInt8)
deriving DecidableEq, Repr

/-- Fuel-indexed worker for `chunksExact`; the fuel only serves
termination and any value `≥ l.length` yields the same result. -/
def chunksExactAux (n : Nat) : Nat → List UInt8 → List (List UInt8)
  | 0, _ => []
  | fuel + 1, l =>
    if 0 < n ∧ n ≤ l.length then
      l.take n :: chunksExactAux n fuel (l.drop n)
    else []

/-- `slice::chunks_exact(n)`: the maximal list of disjoint consecutive
`n`-byte chunks; a final remainder shorter than `n` is discarded. -/
def chunksExact (n : Nat) (l : List UInt8) : List (List UInt8) :=
  chunksExactAux n l.length l

/-- `str::split('\u{0}')` at the byte level: split on every null byte.
On a valid-UTF-8 byte list this coincides with splitting the decoded
string, because `0x00` never occurs inside a multi-byte UTF-8 sequence. -/
def splitNull : List UInt8 → List (List UInt8)
  | [] => [[]]
  | b :: rest =>
    if b = 0 then [] :: splitNull rest
    else
      match splitNull rest with
      | [] => [[b]]
      | x :: xs => (b :: x) :: xs

/-- `b` is a UTF-8 continuation byte (`0x80..=0xBF`). -/
def isCont (b : UInt8) : Bool := 0x80 ≤ b && b ≤ 0xBF

/-- Validity check of `str::from_utf8`: accepts exactly the UTF-8
encodings of Unicode scalar values (no overlong forms, no surrogates,
nothing above `U+10FFFF`) — the table used by Rust's `core::str`. -/
def utf8Valid : List UInt8 → Bool
  | [] => true
  | b :: rest =>
    if b ≤ 0x7F then utf8Valid rest
    else if 0xC2 ≤ b && b ≤ 0xDF then
      match rest with
      | c1 :: r => isCont c1 && utf8Valid r
      | [] => false
    else if b = 0xE0 then
      match rest with
      | c1 :: c2 :: r => (0xA0 ≤ c1 && c1 ≤ 0xBF) && isCont c2 && utf8Valid r
      | _ => false
    else if (0xE1 ≤ b && b ≤ 0xEC) || (0xEE ≤ b && b ≤ 0xEF) then
      match rest with
      | c1 :: c2 :: r => isCont c1 && isCont c2 && utf8Valid r
      | _ => false
    else if b = 0xED then
      match rest with
      | c1 :: c2 :: r => (0x80 ≤ c1 && c1 ≤ 0x9F) && isCont c2 && utf8Valid r
      | _ => false
    else if b = 0xF0 then
      match rest with
      | c1 :: c2 :: c3 :: r =>
        (0x90 ≤ c1 && c1 ≤ 0xBF) && isCont c2 && isCont c3 && utf8Valid r
      | _ => false
    else if 0xF1 ≤ b && b ≤ 0xF3 then
      match rest with
      | c1 :: c2 :: c3 :: r =>
        isCont c1 && isCont c2 && isCont c3 && utf8Valid r
      | _ => false
    else if b = 0xF4 then
      match rest with
      | c1 :: c2 :: c3 :: r =>
        (0x80 ≤ c1 && c1 ≤ 0x8F) && isCont c2 && isCont c3 && utf8Valid r
      | _ => false
    else false

/-- `Tzfile::parse_header`.  Reads the magic as big-endian `u32`
(`InvalidMagic` on mismatch), the version byte, and the six count fields
as big-endian `i32` cast to `usize`.  Every buffer access that would be
out of bounds in Rust panics (`none`). -/
def Tzfile.parse_header (buffer : List UInt8) : Option (Except Error Tzfile) :=
  (slice? buffer 0x00 0x04).bind fun m =>
    let magic := u32ofBytes m
    if magic ≠ MAGIC then some (Except.error Error.InvalidMagic)
    else
      (buffer.get? 4).bind fun version =>
      (slice? buffer 0x14 0x18).bind fun g =>
      (slice? buffer 0x18 0x1C).bind fun s =>
      (slice? buffer 0x1C 0x20).bind fun l =>
      (slice? buffer 0x20 0x24).bind fun t =>
      (slice? buffer 0x24 0x28).bind fun ty =>
      (slice? buffer 0x28 0x2C).bind fun c =>
      some (Except.ok
        { magic := magic
          version := version
          tzh_ttisgmtcnt := usizeOfI32 (i32ofBytes g)
          tzh_ttisstdcnt := usizeOfI32 (i32ofBytes s)
          tzh_leapcnt := usizeOfI32 (i32ofBytes l)
          tzh_timecnt := usizeOfI32 (i32ofBytes t)
          tzh_typecnt := usizeOfI32 (i32ofBytes ty)
          tzh_charcnt := usizeOfI32 (i32ofBytes c) })

/-- `tzh_timecnt_len = self.tzh_timecnt * 5` (usize arithmetic). -/
def Tzfile.tzh_timecnt_len (self : Tzfile) : Nat :=
  self.tzh_timecnt * 5 % USIZE

/-- `tzh_typecnt_len = self.tzh_typecnt * 6` (usize arithmetic). -/
def Tzfile.tzh_typecnt_len (self : Tzfile) : Nat :=
  self.tzh_typecnt * 6 % USIZE

/-- `tzh_leapcnt_len = self.tzh_leapcnt * 4` (usize arithmetic).
NOTE: the factor in the source is 4, although a V1 leap record is
4 + 4 = 8 bytes. -/
def Tzfile.tzh_leapcnt_len (self : Tzfile) : Nat :=
  self.tzh_leapcnt * 4 % USIZE

/-- `tzh_charcnt_len = self.tzh_charcnt` (a usize field). -/
def Tzfile.tzh_charcnt_len (self : Tzfile) : Nat :=
  self.tzh_charcnt % USIZE

/-- `tzh_timecnt_end = V1_HEADER_END + tzh_timecnt_len`. -/
def Tzfile.tzh_timecnt_end (self : Tzfile) : Nat :=
  (V1_HEADER_END + self.tzh_timecnt_len) % USIZE

/-- `tzh_typecnt_end = tzh_timecnt_end + tzh_typecnt_len`. -/
def Tzfile.tzh_typecnt_end (self : Tzfile) : Nat :=
  (self.tzh_timecnt_end + self.tzh_typecnt_len) % USIZE

/-- `tzh_leapcnt_end = tzh_typecnt_end + tzh_leapcnt_len`. -/
def Tzfile.tzh_leapcnt_end (self : Tzfile) : Nat :=
  (self.tzh_typecnt_end + self.tzh_leapcnt_len) % USIZE

/-- `tzh_charcnt_end = tzh_leapcnt_end + tzh_charcnt_len`. -/
def Tzfile.tzh_charcnt_end (self : Tzfile) : Nat :=
  (self.tzh_leapcnt_end + self.tzh_charcnt_len) % USIZE

/-- End of the 4-byte transition-time records:
`V1_HEADER_END + self.tzh_timecnt * 4` (usize arithmetic). -/
def Tzfile.times_end (self : Tzfile) : Nat :=
  (V1_HEADER_END + self.tzh_timecnt * 4 % USIZE) % USIZE

/-- `Tzfile::parse`.  Sequentially slices the four data sections (each
out-of-bounds slice panics, `none`), decodes transition times with
`chunks_exact(4)`, takes the index bytes verbatim, decodes type records
with `chunks_exact(6)`, and splits the abbreviation bytes on null after
a UTF-8 check (`from_utf8(..).unwrap()` panics on invalid UTF-8); the
final `pop().unwrap()` drops the last split element. -/
def Tzfile.parse (self : Tzfile) (buffer : List UInt8) : Option Tz :=
  (slice? buffer V1_HEADER_END self.times_end).bind fun timebytes =>
  (slice? buffer self.times_end self.tzh_timecnt_end).bind fun tzh_timecnt_indices =>
  (slice? buffer self.tzh_timecnt_end self.tzh_typecnt_end).bind fun typebytes =>
  (slice? buffer self.tzh_leapcnt_end self.tzh_charcnt_end).bind fun abbrbytes =>
  (if utf8Valid abbrbytes then some () else none).bind fun _ =>
  (match splitNull abbrbytes with
    | [] => none
    | xs => some xs.dropLast).bind fun tz_abbr =>
  some
    { tzh_timecnt_data := (chunksExact 4 timebytes).map i32ofBytes
      tzh_timecnt_indices := tzh_timecnt_indices
      tzh_typecnt := (chunksExact 6 typebytes).map Ttinfo.ofBytes
      tz_abbr := tz_abbr }

/-- C8: the abbreviation section is split on null bytes and the final
(empty, from the trailing terminator) element is discarded: for a
character section equal to the bytes of `"MDT\0MST\0MWT\0"`, the decoded
abbreviation list is exactly the bytes of `["MDT", "MST", "MWT"]`
(`0x4D 0x44 0x54` = "MDT", `0x4D 0x53 0x54` = "MST",
`0x4D 0x57 0x54` = "MWT"). -/
theorem C8_abbr_split_drops_trailing_empty :
    Tzfile.parse ⟨MAGIC, 50, 0, 0, 0, 0, 0, 12⟩
      (List.replicate 44 0 ++
        [0x4D, 0x44, 0x54, 0, 0x4D, 0x53, 0x54, 0, 0x4D, 0x57, 0x54, 0]) =
    some ⟨[], [], [], [[0x4D, 0x44, 0x54], [0x4D, 0x53, 0x54], [0x4D, 0x57, 0x54]]⟩ := by
  decide

/-- C1 (failing input): the source computes `tzh_leapcnt_len` as
`tzh_leapcnt * 4`, not `tzh_leapcnt * 8`.  For a header with
`leapCount = 1, timeCount = typeCount = 0, charCount = 3` and a buffer
whose 8-byte leap record at offsets 44..52 is `41 00 42 00 43 00 44 00`
followed by the character section `58 59 00` ("XY\0") at offsets 52..55,
the decoder reads the characters from offsets 48..51 = 44 + 1×4
(the second half of the leap record), yielding the abbreviation list
`[[0x43]]` ("C") — under the claimed 44 + 1×8 start it would read
"XY\0" and yield "XY". -/
theorem C1_leap_section_counted_as_4_bytes :
    Tzfile.parse ⟨MAGIC, 50, 0, 0, 1, 0, 0, 3⟩
      (List.replicate 44 0 ++
        [0x41, 0, 0x42, 0, 0x43, 0, 0x44, 0] ++ [0x58, 0x59, 0]) =
    some ⟨[], [], [], [[0x43]]⟩ := by
  decide

/-- C2 (counterexample): for the header with `timeCount = 1` (all other
counts 0) and a 44-byte buffer, the transition-times boundary 48 exceeds
the buffer length, and `parse` panics on the out-of-bounds slice
(modelled as `none`): no value of any kind is returned.  The claimed
`TruncatedBody` error value is never produced — the crate's `Error`
type has no such variant (its only variant is `InvalidMagic`) and
`parse` returns a plain `Tz`, a type with no error channel at all. -/
theorem C2_counterexample :
    Tzfile.parse ⟨MAGIC, 50, 0, 0, 0, 1, 0, 0⟩ (List.replicate 44 0) = none := by
  decide

/-- C3 (counterexample): two buffers shorter than 44 bytes on which
`parse_header` does not fail with a truncation/out-of-bounds error
value.  On the 4-byte buffer `"TZif"` (valid magic) it panics on an
out-of-bounds access (`none` — a panic is not an error value); on the
4-byte buffer `00 00 00 00` it fails with `InvalidMagic`, so the
outcome is not independent of the buffer's content either. -/
theorem C3_counterexample :
    Tzfile.parse_header [0x54, 0x5A, 0x69, 0x66] = none ∧
      Tzfile.parse_header [0, 0, 0, 0] = some (Except.error Error.InvalidMagic) :=
  ⟨rfl, rfl⟩

/-- C4 (counterexample): for the header with `charCount = 1` (all other
counts 0) and a 45-byte buffer whose character section is the single
byte `0xFF` (not valid UTF-8), `parse` panics on
`from_utf8(..).unwrap()` (modelled as `none`): it returns no value at
all, not an `InvalidEncoding` error value — the crate's `Error` type
has no such variant. -/
theorem C4_counterexample :
    Tzfile.parse ⟨MAGIC, 50, 0, 0, 0, 0, 0, 1⟩ (List.replicate 44 0 ++ [0xFF]) =
      none := by
  decide

/-! ## Helper lemmas -/

theorem slice?_eq_some_of {buffer : List UInt8} {a b : Nat}
    (h1 : a ≤ b) (h2 : b ≤ buffer.length) :
    slice? buffer a b = some ((buffer.drop a).take (b - a)) := by
  simp [slice?, h1, h2]

theorem slice?_eq_none_of {buffer : List UInt8} {a b : Nat}
    (h : b > buffer.length ∨ a > b) :
    slice? buffer a b = none := by
  rcases h with h | h <;> simp [slice?] <;> omega

theorem chunksExactAux_length {n fuel : Nat} (hn : 0 < n) :
    ∀ {l : List UInt8}, l.length ≤ fuel →
      (chunksExactAux n fuel l).length = l.length / n := by
  induction fuel with
  | zero =>
    intro l hf
    have : l.length = 0 := by omega
    simp [chunksExactAux, this, Nat.div_eq_of_lt hn]
  | succ fuel ih =>
    intro l hf
    by_cases h : n ≤ l.length
    · rw [chunksExactAux, if_pos ⟨hn, h⟩]
      have hlen : (l.drop n).length ≤ fuel := by
        simp only [List.length_drop]; omega
      rw [List.length_cons, ih hlen, List.length_drop,
        Nat.div_eq_sub_div hn h]
    · rw [chunksExactAux, if_neg (by omega)]
      have : l.length < n := by omega
      simp [Nat.div_eq_of_lt this]

theorem chunksExactAux_getElem? {n : Nat} (hn : 0 < n) :
    ∀ (fuel i : Nat) (l : List UInt8), l.length ≤ fuel → (i + 1) * n ≤ l.length →
      (chunksExactAux n fuel l)[i]? = some ((l.drop (i * n)).take n) := by
  intro fuel
  induction fuel with
  | zero =>
    intro i l hf hi
    exfalso
    have : n ≤ (i + 1) * n := Nat.le_mul_of_pos_left n (by omega)
    omega
  | succ fuel ih =>
    intro i l hf hi
    have hn' : n ≤ l.length := by
      have : n ≤ (i + 1) * n := Nat.le_mul_of_pos_left n (by omega)
      omega
    rw [chunksExactAux, if_pos ⟨hn, hn'⟩]
    cases i with
    | zero => simp
    | succ i =>
      rw [List.getElem?_cons_succ]
      have hf' : (l.drop n).length ≤ fuel := by
        simp only [List.length_drop]; omega
      have hi' : (i + 1) * n ≤ (l.drop n).length := by
        simp only [List.length_drop]
        have : (i + 1 + 1) * n = (i + 1) * n + n := by ring
        omega
      rw [ih i (l.drop n) hf' hi', List.drop_drop]
      have : n + i * n = (i + 1) * n := by ring
      rw [this]

theorem chunksExactAux_mem_length {n : Nat} :
    ∀ {fuel : Nat} {l c : List UInt8}, c ∈ chunksExactAux n fuel l → c.length = n := by
  intro fuel
  induction fuel with
  | zero => intro l c h; simp [chunksExactAux] at h
  | succ fuel ih =>
    intro l c h
    rw [chunksExactAux] at h
    split at h
    · rcases List.mem_cons.mp h with h | h
      · subst h
        simp only [List.length_take]
        omega
      · exact ih h
    · simp at h

theorem chunksExact_length {n : Nat} (hn : 0 < n) (l : List UInt8) :
    (chunksExact n l).length = l.length / n :=
  chunksExactAux_length hn le_rfl

theorem chunksExact_getElem? {n i : Nat} {l : List UInt8} (hn : 0 < n)
    (hi : (i + 1) * n ≤ l.length) :
    (chunksExact n l)[i]? = some ((l.drop (i * n)).take n) :=
  chunksExactAux_getElem? hn l.length i l le_rfl hi

theorem chunksExact_mem_length {n : Nat} {l c : List UInt8}
    (h : c ∈ chunksExact n l) : c.length = n :=
  chunksExactAux_mem_length h

theorem splitNull_ne_nil (s : List UInt8) : splitNull s ≠ [] := by
  cases s with
  | nil => simp [splitNull]
  | cons b rest =>
    rw [splitNull]
    split
    · simp
    · split <;> simp

/-- If a nonempty byte list does not end in a null byte, the last
element of its null-split is nonempty. -/
theorem splitNull_getLast_ne_nil :
    ∀ {s : List UInt8}, s ≠ [] → s.getLast? ≠ some 0 →
      ∀ {z : List UInt8}, (splitNull s).getLast? = some z → z ≠ [] := by
  intro s
  induction s with
  | nil => intro h; exact absurd rfl h
  | cons b rest ih =>
    intro _ hlast z hz
    cases rest with
    | nil =>
      have hb : ¬b = 0 := by
        intro h; exact hlast (by simp [List.getLast?, h])
      rw [splitNull, if_neg hb] at hz
      simp [splitNull] at hz
      subst hz
      simp
    | cons b2 rest2 =>
      have hlast' : (b2 :: rest2).getLast? ≠ some 0 := by
        rwa [List.getLast?_cons_cons] at hlast
      cases hsp : splitNull (b2 :: rest2) with
      | nil => exact absurd hsp (splitNull_ne_nil _)
      | cons x xs =>
        rw [splitNull, hsp] at hz
        split at hz
        · rw [List.getLast?_cons_cons] at hz
          refine ih (by simp) hlast' ?_
          rw [hsp]
          exact hz
        · cases xs with
          | nil =>
            simp at hz
            subst hz
            simp
          | cons x2 xs2 =>
            rw [List.getLast?_cons_cons] at hz
            refine ih (by simp) hlast' ?_
            rw [hsp, List.getLast?_cons_cons]
            exact hz

/-- Inversion of `Tzfile.parse`: a successful decode determines all four
section slices and expresses every output component in terms of them. -/
theorem Tzfile.parse_eq_some {self : Tzfile} {buffer : List UInt8} {tz : Tz}
    (h : self.parse buffer = some tz) :
    ∃ timebytes indices typebytes abbrbytes : List UInt8,
      slice? buffer V1_HEADER_END self.times_end = some timebytes ∧
      slice? buffer self.times_end self.tzh_timecnt_end = some indices ∧
      slice? buffer self.tzh_timecnt_end self.tzh_typecnt_end = some typebytes ∧
      slice? buffer self.tzh_leapcnt_end self.tzh_charcnt_end = some abbrbytes ∧
      utf8Valid abbrbytes = true ∧
      tz = { tzh_timecnt_data := (chunksExact 4 timebytes).map i32ofBytes
             tzh_timecnt_indices := indices
             tzh_typecnt := (chunksExact 6 typebytes).map Ttinfo.ofBytes
             tz_abbr := (splitNull abbrbytes).dropLast } := by
  rw [Tzfile.parse] at h
  cases e1 : slice? buffer V1_HEADER_END self.times_end with
  | none => rw [e1] at h; simp at h
  | some timebytes =>
  rw [e1] at h
  cases e2 : slice? buffer self.times_end self.tzh_timecnt_end with
  | none => rw [e2] at h; simp at h
  | some indices =>
  rw [e2] at h
  cases e3 : slice? buffer self.tzh_timecnt_end self.tzh_typecnt_end with
  | none => rw [e3] at h; simp at h
  | some typebytes =>
  rw [e3] at h
  cases e4 : slice? buffer self.tzh_leapcnt_end self.tzh_charcnt_end with
  | none => rw [e4] at h; simp at h
  | some abbrbytes =>
  rw [e4] at h
  simp only [Option.some_bind] at h
  cases hu : utf8Valid abbrbytes with
  | false => rw [hu] at h; simp at h
  | true =>
  rw [hu] at h
  simp only [if_true, Option.some_bind] at h
  cases hsp : splitNull abbrbytes with
  | nil => exact absurd hsp (splitNull_ne_nil _)
  | cons x xs =>
  rw [hsp] at h
  simp only [Option.some_bind, Option.some.injEq] at h
  refine ⟨timebytes, indices, typebytes, abbrbytes, rfl, rfl, rfl, rfl, hu, ?_⟩
  rw [← h, hsp]

/-- A 4-byte big-endian word equals the TZif magic iff the bytes are
exactly `54 5A 69 66` ("TZif"). -/
theorem u32ofBytes_eq_magic {bs : List UInt8} (hlen : bs.length = 4) :
    u32ofBytes bs = MAGIC ↔ bs = [0x54, 0x5A, 0x69, 0x66] := by
  match bs, hlen with
  | [a, b, c, d], _ =>
    constructor
    · intro h
      have ha : a.toNat < 256 := a.toNat_lt_size
      have hb : b.toNat < 256 := b.toNat_lt_size
      have hc : c.toNat < 256 := c.toNat_lt_size
      have hd : d.toNat < 256 := d.toNat_lt_size
      have h2 : a.toNat * 2 ^ 24 + b.toNat * 2 ^ 16 + c.toNat * 2 ^ 8 + d.toNat =
          0x545A6966 := h
      have ha' : a.toNat = 0x54 := by omega
      have hb' : b.toNat = 0x5A := by omega
      have hc' : c.toNat = 0x69 := by omega
      have hd' : d.toNat = 0x66 := by omega
      have : a = 0x54 := by apply UInt8.toNat.inj; rw [ha']; rfl
      have : b = 0x5A := by apply UInt8.toNat.inj; rw [hb']; rfl
      have : c = 0x69 := by apply UInt8.toNat.inj; rw [hc']; rfl
      have : d = 0x66 := by apply UInt8.toNat.inj; rw [hd']; rfl
      subst_vars
      rfl
    · intro h
      rw [show ([a, b, c, d] : List UInt8) = [0x54, 0x5A, 0x69, 0x66] from h]
      decide

/-- Evaluation of `parse_header` on a buffer of at least 44 bytes whose
magic matches: it succeeds, and each count field is the big-endian `i32`
at its fixed offset cast to `usize`. -/
theorem Tzfile.parse_header_ok (buffer : List UInt8) (hlen : 44 ≤ buffer.length)
    (hmagic : u32ofBytes (buffer.take 4) = MAGIC) :
    ∃ version, Tzfile.parse_header buffer = some (Except.ok
      { magic := MAGIC
        version := version
        tzh_ttisgmtcnt := usizeOfI32 (i32ofBytes ((buffer.drop 0x14).take 4))
        tzh_ttisstdcnt := usizeOfI32 (i32ofBytes ((buffer.drop 0x18).take 4))
        tzh_leapcnt := usizeOfI32 (i32ofBytes ((buffer.drop 0x1C).take 4))
        tzh_timecnt := usizeOfI32 (i32ofBytes ((buffer.drop 0x20).take 4))
        tzh_typecnt := usizeOfI32 (i32ofBytes ((buffer.drop 0x24).take 4))
        tzh_charcnt := usizeOfI32 (i32ofBytes ((buffer.drop 0x28).take 4)) }) := by
  rw [Tzfile.parse_header, slice?_eq_some_of (by omega) (by omega)]
  simp only [List.drop_zero, Nat.sub_zero, Option.some_bind]
  rw [if_neg (by simp [hmagic])]
  cases h4 : buffer.get? 4 with
  | none => exact absurd (List.get?_eq_none.mp h4) (by omega)
  | some version =>
    refine ⟨version, ?_⟩
    rw [slice?_eq_some_of (by omega) (by omega),
      slice?_eq_some_of (by omega) (by omega),
      slice?_eq_some_of (by omega) (by omega),
      slice?_eq_some_of (by omega) (by omega),
      slice?_eq_some_of (by omega) (by omega),
      slice?_eq_some_of (by omega) (by omega)]
    simp only [Option.some_bind]
    rw [hmagic]

/-- C5: for any buffer with at least 4 bytes whose first four bytes are
not `54 5A 69 66`, `parse_header` fails with `InvalidMagic`; when the
first four bytes do equal the magic and the buffer is at least 44 bytes
long, `parse_header` succeeds (in particular it does not fail with
`InvalidMagic`). -/
theorem C5_magic_validation (buffer : List UInt8) :
    (4 ≤ buffer.length → buffer.take 4 ≠ [0x54, 0x5A, 0x69, 0x66] →
      Tzfile.parse_header buffer = some (Except.error Error.InvalidMagic)) ∧
    (44 ≤ buffer.length → buffer.take 4 = [0x54, 0x5A, 0x69, 0x66] →
      ∃ hdr, Tzfile.parse_header buffer = some (Except.ok hdr)) := by
  constructor
  · intro hlen hne
    rw [Tzfile.parse_header, slice?_eq_some_of (by omega) (by omega)]
    simp only [List.drop_zero, Nat.sub_zero, Option.some_bind]
    have hlen4 : (buffer.take 4).length = 4 := by
      rw [List.length_take]; omega
    rw [if_pos fun hm => hne ((u32ofBytes_eq_magic hlen4).mp hm)]
  · intro hlen heq
    have hlen4 : (buffer.take 4).length = 4 := by
      rw [List.length_take]; omega
    obtain ⟨version, h⟩ := Tzfile.parse_header_ok buffer hlen
      ((u32ofBytes_eq_magic hlen4).mpr heq)
    exact ⟨_, h⟩

/-- Witness for `C5_magic_validation` at two concrete buffers: four zero
bytes (wrong magic) and a 44-byte buffer starting with "TZif". -/
theorem C5_magic_validation_witness :
    (Tzfile.parse_header [0, 0, 0, 0] = some (Except.error Error.InvalidMagic)) ∧
      ∃ hdr, Tzfile.parse_header
        ([0x54, 0x5A, 0x69, 0x66] ++ List.replicate 40 0) = some (Except.ok hdr) :=
  ⟨(C5_magic_validation [0, 0, 0, 0]).1 (by decide) (by decide),
    (C5_magic_validation ([0x54, 0x5A, 0x69, 0x66] ++ List.replicate 40 0)).2
      (by decide) (by decide)⟩

/-- Every big-endian `i32` read lies in the `i32` range. -/
theorem i32ofBytes_range (bs : List UInt8) :
    -(2 ^ 31) ≤ i32ofBytes bs ∧ i32ofBytes bs < 2 ^ 31 := by
  have h0 : (bs.getD 0 0).toNat < 256 := (bs.getD 0 0).toNat_lt_size
  have h1 : (bs.getD 1 0).toNat < 256 := (bs.getD 1 0).toNat_lt_size
  have h2 : (bs.getD 2 0).toNat < 256 := (bs.getD 2 0).toNat_lt_size
  have h3 : (bs.getD 3 0).toNat < 256 := (bs.getD 3 0).toNat_lt_size
  rw [i32ofBytes]
  simp only [u32ofBytes]
  split <;> omega

/-- C9: `parse_header` reads each count field as a big-endian signed
32-bit integer and casts it with `as usize`; for a buffer whose stored
`timeCount` field is negative as an `i32`, the resulting count is the
sign-extended value `2 ^ 64 + v` — not zero and not an error.  (All six
count fields go through the identical read-and-cast, as visible in
`Tzfile.parse_header`.) -/
theorem C9_negative_count_sign_extended (buffer : List UInt8) (v : Int)
    (hlen : 44 ≤ buffer.length)
    (hmagic : buffer.take 4 = [0x54, 0x5A, 0x69, 0x66])
    (hv : i32ofBytes ((buffer.drop 0x20).take 4) = v)
    (hneg : v < 0) :
    ∃ hdr, Tzfile.parse_header buffer = some (Except.ok hdr) ∧
      (hdr.tzh_timecnt : Int) = 2 ^ 64 + v ∧ hdr.tzh_timecnt ≠ 0 := by
  have hlen4 : (buffer.take 4).length = 4 := by
    rw [List.length_take]; omega
  obtain ⟨version, h⟩ := Tzfile.parse_header_ok buffer hlen
    ((u32ofBytes_eq_magic hlen4).mpr hmagic)
  refine ⟨_, h, ?_, ?_⟩
  · simp only [usizeOfI32, hv, USIZE]
    have := (i32ofBytes_range ((buffer.drop 0x20).take 4)).1
    rw [hv] at this
    omega
  · simp only [usizeOfI32, hv, USIZE]
    have := (i32ofBytes_range ((buffer.drop 0x20).take 4)).1
    rw [hv] at this
    omega

/-- Witness for `C9_negative_count_sign_extended`: a 44-byte buffer with
magic "TZif" and `FF FF FF FF` in the `timeCount` field (offset 0x20),
giving `v = -1` and a count of `2 ^ 64 - 1`. -/
theorem C9_negative_count_sign_extended_witness :
    i32ofBytes ((([0x54, 0x5A, 0x69, 0x66] ++ List.replicate 28 0 ++
        [0xFF, 0xFF, 0xFF, 0xFF] ++ List.replicate 8 0 : List UInt8).drop 0x20).take 4) =
      -1 ∧
    ∃ hdr, Tzfile.parse_header ([0x54, 0x5A, 0x69, 0x66] ++ List.replicate 28 0 ++
        [0xFF, 0xFF, 0xFF, 0xFF] ++ List.replicate 8 0) = some (Except.ok hdr) ∧
      (hdr.tzh_timecnt : Int) = 2 ^ 64 + -1 ∧ hdr.tzh_timecnt ≠ 0 :=
  ⟨by decide,
    C9_negative_count_sign_extended _ (-1) (by decide) (by decide) (by decide)
      (by decide)⟩

theorem optionBindNone {α β : Type} (x : Option α) (f : α → Option β)
    (h : ∀ a, f a = none) : x.bind f = none := by
  cases x <;> simp [h]

/-- If any of the four section slices taken by `Tzfile::parse` is out of
bounds, the decode panics. -/
theorem Tzfile.parse_eq_none_of_slice {self : Tzfile} {buffer : List UInt8}
    (h : slice? buffer V1_HEADER_END self.times_end = none ∨
      slice? buffer self.times_end self.tzh_timecnt_end = none ∨
      slice? buffer self.tzh_timecnt_end self.tzh_typecnt_end = none ∨
      slice? buffer self.tzh_leapcnt_end self.tzh_charcnt_end = none) :
    self.parse buffer = none := by
  rw [Tzfile.parse]
  rcases h with h | h | h | h
  · rw [h]; simp
  · apply optionBindNone; intro tb; rw [h]; simp
  · apply optionBindNone; intro tb; apply optionBindNone; intro ib
    rw [h]; simp
  · apply optionBindNone; intro tb; apply optionBindNone; intro ib
    apply optionBindNone; intro yb
    rw [h]; simp

/-- C2 (amended): for every header and buffer where some computed section
boundary exceeds the buffer's length, `Tzfile::parse` aborts by panicking
on an out-of-bounds slice (modelled as `none`), so no partial result is
ever returned to the caller.  The panic is not an error value: the
crate's `Error` type has no `TruncatedBody` variant and `parse` returns
a plain `Tz` with no error channel. -/
theorem C2_oob_section_boundary_panics (self : Tzfile) (buffer : List UInt8)
    (h : buffer.length < self.tzh_timecnt_end ∨
      buffer.length < self.tzh_typecnt_end ∨
      buffer.length < self.tzh_leapcnt_end ∨
      buffer.length < self.tzh_charcnt_end) :
    self.parse buffer = none := by
  apply Tzfile.parse_eq_none_of_slice
  rcases h with h | h | h | h
  · exact Or.inr (Or.inl (slice?_eq_none_of (Or.inl h)))
  · exact Or.inr (Or.inr (Or.inl (slice?_eq_none_of (Or.inl h))))
  · refine Or.inr (Or.inr (Or.inr ?_))
    by_cases hc : buffer.length < self.tzh_charcnt_end
    · exact slice?_eq_none_of (Or.inl hc)
    · exact slice?_eq_none_of (Or.inr (by omega))
  · exact Or.inr (Or.inr (Or.inr (slice?_eq_none_of (Or.inl h))))

/-- Witness for `C2_oob_section_boundary_panics`: the header with
`timeCount = 1` against a 44-byte buffer (boundary 49 > 44). -/
theorem C2_oob_section_boundary_panics_witness :
    (List.replicate 44 (0 : UInt8)).length <
        (⟨MAGIC, 50, 0, 0, 0, 1, 0, 0⟩ : Tzfile).tzh_timecnt_end ∧
      Tzfile.parse ⟨MAGIC, 50, 0, 0, 0, 1, 0, 0⟩ (List.replicate 44 0) = none :=
  ⟨by decide, C2_oob_section_boundary_panics _ _ (Or.inl (by decide))⟩

/-- C3 (amended): for every buffer shorter than 44 bytes, `parse_header`
never produces a header: it either panics on an out-of-bounds access
(modelled as `none`) or — when the buffer holds at least 4 bytes whose
big-endian value differs from the magic — returns `InvalidMagic`.  The
outcome is thus content-dependent, and no truncation error value exists
in the code. -/
theorem C3_short_buffer_no_header (buffer : List UInt8)
    (h : buffer.length < 44) :
    Tzfile.parse_header buffer = none ∨
      Tzfile.parse_header buffer = some (Except.error Error.InvalidMagic) := by
  rw [Tzfile.parse_header]
  cases e1 : slice? buffer 0x00 0x04 with
  | none => left; simp
  | some m =>
    simp only [Option.some_bind]
    by_cases hm : u32ofBytes m ≠ MAGIC
    · right; rw [if_pos hm]
    · left
      rw [if_neg hm]
      apply optionBindNone; intro version
      apply optionBindNone; intro g
      apply optionBindNone; intro s
      apply optionBindNone; intro l
      apply optionBindNone; intro t
      apply optionBindNone; intro ty
      rw [slice?_eq_none_of (Or.inl (by omega : buffer.length < 0x2C))]
      simp

/-- Witness for `C3_short_buffer_no_header`: the 4-byte buffer `"TZif"`. -/
theorem C3_short_buffer_no_header_witness :
    ([0x54, 0x5A, 0x69, 0x66] : List UInt8).length < 44 ∧
      (Tzfile.parse_header [0x54, 0x5A, 0x69, 0x66] = none ∨
        Tzfile.parse_header [0x54, 0x5A, 0x69, 0x66] =
          some (Except.error Error.InvalidMagic)) :=
  ⟨by decide, C3_short_buffer_no_header _ (by decide)⟩

/-- C4 (amended): for every header and buffer whose abbreviation-characters
byte range exists but is not valid UTF-8, `Tzfile::parse` panics on
`from_utf8(..).unwrap()` (modelled as `none`), returning no value at all —
not an `InvalidEncoding` error value, which does not exist in the crate's
`Error` type. -/
theorem C4_invalid_utf8_abbr_panics (self : Tzfile) (buffer ab : List UInt8)
    (h4 : slice? buffer self.tzh_leapcnt_end self.tzh_charcnt_end = some ab)
    (hu : utf8Valid ab = false) :
    self.parse buffer = none := by
  rw [Tzfile.parse]
  apply optionBindNone; intro tb
  apply optionBindNone; intro ib
  apply optionBindNone; intro yb
  rw [h4]
  simp only [Option.some_bind]
  rw [hu]
  simp

/-- Witness for `C4_invalid_utf8_abbr_panics`: `charCount = 1` and the
character section `0xFF`. -/
theorem C4_invalid_utf8_abbr_panics_witness :
    slice? (List.replicate 44 (0 : UInt8) ++ [0xFF])
        (⟨MAGIC, 50, 0, 0, 0, 0, 0, 1⟩ : Tzfile).tzh_leapcnt_end
        (⟨MAGIC, 50, 0, 0, 0, 0, 0, 1⟩ : Tzfile).tzh_charcnt_end = some [0xFF] ∧
      utf8Valid [0xFF] = false ∧
      Tzfile.parse ⟨MAGIC, 50, 0, 0, 0, 0, 0, 1⟩
        (List.replicate 44 (0 : UInt8) ++ [0xFF]) = none :=
  ⟨by decide, by decide,
    C4_invalid_utf8_abbr_panics _ _ [0xFF] (by decide) (by decide)⟩

/-- C7: every transition-type record decoded by `Tzfile::parse` comes
from a 6-byte chunk, and its stored abbreviation index is the chunk's
sixth byte divided by 4 (`u8` integer division); in particular a raw
stored index byte of 4 decodes to table index 1. -/
theorem C7_abbrind_is_sixth_byte_div_4 (self : Tzfile) (buffer : List UInt8)
    (tz : Tz) (info : Ttinfo)
    (hp : self.parse buffer = some tz) (hin : info ∈ tz.tzh_typecnt) :
    ∃ tti : List UInt8, tti.length = 6 ∧ info = Ttinfo.ofBytes tti ∧
      info.tt_abbrind = tti.getD 5 0 / 4 ∧
      (tti.getD 5 0 = 4 → info.tt_abbrind = 1) := by
  obtain ⟨tb, ib, yb, ab, _, _, _, _, _, htz⟩ := Tzfile.parse_eq_some hp
  subst htz
  simp only at hin
  obtain ⟨tti, htti, hinfo⟩ := List.mem_map.mp hin
  refine ⟨tti, chunksExact_mem_length htti, hinfo.symm, ?_, ?_⟩
  · rw [← hinfo]; rfl
  · intro h5
    rw [← hinfo]
    simp only [Ttinfo.ofBytes, h5]
    decide

/-- Witness for `C7_abbrind_is_sixth_byte_div_4`: one type record
`00 00 00 01 01 04` (raw abbreviation byte 4), which decodes to
`tt_abbrind = 1`. -/
theorem C7_abbrind_is_sixth_byte_div_4_witness :
    Tzfile.parse ⟨MAGIC, 50, 0, 0, 0, 0, 1, 4⟩
        (List.replicate 44 0 ++ [0, 0, 0, 1, 1, 4] ++ [0x41, 0x42, 0x43, 0]) =
      some ⟨[], [], [⟨1, 1, 1⟩], [[0x41, 0x42, 0x43]]⟩ ∧
    ∃ tti : List UInt8, tti.length = 6 ∧
      (⟨1, 1, 1⟩ : Ttinfo) = Ttinfo.ofBytes tti ∧
      (⟨1, 1, 1⟩ : Ttinfo).tt_abbrind = tti.getD 5 0 / 4 ∧
      (tti.getD 5 0 = 4 → (⟨1, 1, 1⟩ : Ttinfo).tt_abbrind = 1) :=
  ⟨by decide,
    C7_abbrind_is_sixth_byte_div_4 ⟨MAGIC, 50, 0, 0, 0, 0, 1, 4⟩
      (List.replicate 44 0 ++ [0, 0, 0, 1, 1, 4] ++ [0x41, 0x42, 0x43, 0])
      ⟨[], [], [⟨1, 1, 1⟩], [[0x41, 0x42, 0x43]]⟩ ⟨1, 1, 1⟩ (by decide) (by decide)⟩

/-- C10: the body decoder removes the last element of the null-split
abbreviation list unconditionally.  Whenever `parse` succeeds and the
abbreviation byte range is nonempty and does not end with a null byte,
the null-split of that range is `tz_abbr` plus one final nonempty
element that is silently omitted; for `charCount = 0` the decoded
abbreviation list is empty. -/
theorem C10_last_abbr_dropped (self : Tzfile) (buffer : List UInt8) (tz : Tz)
    (ab : List UInt8)
    (hp : self.parse buffer = some tz)
    (hab : slice? buffer self.tzh_leapcnt_end self.tzh_charcnt_end = some ab) :
    ((ab ≠ [] → ab.getLast? ≠ some 0 →
        ∃ z, z ≠ [] ∧ splitNull ab = tz.tz_abbr ++ [z]) ∧
      (self.tzh_charcnt = 0 → tz.tz_abbr = [])) := by
  obtain ⟨tb, ib, yb, ab0, _, _, _, hab0, _, htz⟩ := Tzfile.parse_eq_some hp
  rw [hab] at hab0
  have heq : ab = ab0 := Option.some.inj hab0
  subst heq
  constructor
  · intro hne hlast
    have hsplit_ne := splitNull_ne_nil ab
    cases hz : (splitNull ab).getLast? with
    | none => exact absurd (List.getLast?_eq_none_iff.mp hz) hsplit_ne
    | some z =>
      refine ⟨z, splitNull_getLast_ne_nil hne hlast hz, ?_⟩
      rw [htz]
      simp only
      conv_lhs => rw [← List.dropLast_append_getLast hsplit_ne]
      rw [List.getLast?_eq_getLast _ hsplit_ne] at hz
      rw [Option.some.inj hz]
  · intro hc0
    have hce : self.tzh_charcnt_end = self.tzh_leapcnt_end := by
      rw [Tzfile.tzh_charcnt_end, Tzfile.tzh_charcnt_len, hc0]
      simp only [Nat.zero_mod, Nat.add_zero]
      apply Nat.mod_eq_of_lt
      rw [Tzfile.tzh_leapcnt_end]
      exact Nat.mod_lt _ (by decide)
    rw [slice?] at hab
    split at hab
    · have hnil : ab = [] := by
        have h2 := Option.some.inj hab
        rw [hce, Nat.sub_self, List.take_zero] at h2
        exact h2.symm
      rw [htz, hnil]
      rfl
    · exact absurd hab (by simp)

/-- Witness for `C10_last_abbr_dropped`: `charCount = 2` with character
section `"AB"` (no trailing null): `parse` succeeds with an empty
`tz_abbr`, the nonempty final split element `"AB"` being dropped. -/
theorem C10_last_abbr_dropped_witness :
    Tzfile.parse ⟨MAGIC, 50, 0, 0, 0, 0, 0, 2⟩
        (List.replicate 44 0 ++ [0x41, 0x42]) = some ⟨[], [], [], []⟩ ∧
    slice? (List.replicate 44 0 ++ [0x41, 0x42])
        (⟨MAGIC, 50, 0, 0, 0, 0, 0, 2⟩ : Tzfile).tzh_leapcnt_end
        (⟨MAGIC, 50, 0, 0, 0, 0, 0, 2⟩ : Tzfile).tzh_charcnt_end =
      some [0x41, 0x42] ∧
    ((([0x41, 0x42] : List UInt8) ≠ [] →
        ([0x41, 0x42] : List UInt8).getLast? ≠ some 0 →
        ∃ z, z ≠ [] ∧ splitNull [0x41, 0x42] =
          (⟨[], [], [], []⟩ : Tz).tz_abbr ++ [z]) ∧
      ((⟨MAGIC, 50, 0, 0, 0, 0, 0, 2⟩ : Tzfile).tzh_charcnt = 0 →
        (⟨[], [], [], []⟩ : Tz).tz_abbr = [])) :=
  ⟨by decide, by decide,
    C10_last_abbr_dropped ⟨MAGIC, 50, 0, 0, 0, 0, 0, 2⟩
      (List.replicate 44 0 ++ [0x41, 0x42]) ⟨[], [], [], []⟩ [0x41, 0x42]
      (by decide) (by decide)⟩

/-- Full evaluation of `Tzfile::parse` when the declared sections fit in
the buffer without `usize` overflow (`buffer.length < 2 ^ 63` is the
Rust guarantee that a slice is at most `isize::MAX` bytes) and the
abbreviation range is valid UTF-8. -/
theorem Tzfile.parse_eval (self : Tzfile) (buffer : List UInt8)
    (hlen : V1_HEADER_END + self.tzh_timecnt * 5 + self.tzh_typecnt * 6 +
        self.tzh_leapcnt * 4 + self.tzh_charcnt ≤ buffer.length)
    (hcap : buffer.length < 2 ^ 63)
    (hutf : utf8Valid ((buffer.drop (V1_HEADER_END + self.tzh_timecnt * 5 +
        self.tzh_typecnt * 6 + self.tzh_leapcnt * 4)).take self.tzh_charcnt) = true) :
    self.parse buffer = some
      { tzh_timecnt_data := (chunksExact 4
          ((buffer.drop V1_HEADER_END).take (self.tzh_timecnt * 4))).map i32ofBytes
        tzh_timecnt_indices :=
          (buffer.drop (V1_HEADER_END + self.tzh_timecnt * 4)).take self.tzh_timecnt
        tzh_typecnt := (chunksExact 6
          ((buffer.drop (V1_HEADER_END + self.tzh_timecnt * 5)).take
            (self.tzh_typecnt * 6))).map Ttinfo.ofBytes
        tz_abbr := (splitNull ((buffer.drop (V1_HEADER_END + self.tzh_timecnt * 5 +
          self.tzh_typecnt * 6 + self.tzh_leapcnt * 4)).take
            self.tzh_charcnt)).dropLast } := by
  have hV : V1_HEADER_END = 44 := rfl
  have hW : USIZE = 2 ^ 64 := rfl
  rw [hV] at hlen hutf ⊢
  have m1 : self.tzh_timecnt * 4 % 2 ^ 64 = self.tzh_timecnt * 4 :=
    Nat.mod_eq_of_lt (by omega)
  have m2 : self.tzh_timecnt * 5 % 2 ^ 64 = self.tzh_timecnt * 5 :=
    Nat.mod_eq_of_lt (by omega)
  have m3 : self.tzh_typecnt * 6 % 2 ^ 64 = self.tzh_typecnt * 6 :=
    Nat.mod_eq_of_lt (by omega)
  have m4 : self.tzh_leapcnt * 4 % 2 ^ 64 = self.tzh_leapcnt * 4 :=
    Nat.mod_eq_of_lt (by omega)
  have m5 : self.tzh_charcnt % 2 ^ 64 = self.tzh_charcnt :=
    Nat.mod_eq_of_lt (by omega)
  have e1 : self.times_end = 44 + self.tzh_timecnt * 4 := by
    rw [Tzfile.times_end, hV, hW, m1, Nat.mod_eq_of_lt (by omega)]
  have e2 : self.tzh_timecnt_end = 44 + self.tzh_timecnt * 5 := by
    rw [Tzfile.tzh_timecnt_end, Tzfile.tzh_timecnt_len, hV, hW, m2,
      Nat.mod_eq_of_lt (by omega)]
  have e3 : self.tzh_typecnt_end =
      44 + self.tzh_timecnt * 5 + self.tzh_typecnt * 6 := by
    rw [Tzfile.tzh_typecnt_end, Tzfile.tzh_typecnt_len, e2, hW, m3,
      Nat.mod_eq_of_lt (by omega)]
  have e4 : self.tzh_leapcnt_end =
      44 + self.tzh_timecnt * 5 + self.tzh_typecnt * 6 + self.tzh_leapcnt * 4 := by
    rw [Tzfile.tzh_leapcnt_end, Tzfile.tzh_leapcnt_len, e3, hW, m4,
      Nat.mod_eq_of_lt (by omega)]
  have e5 : self.tzh_charcnt_end = 44 + self.tzh_timecnt * 5 +
      self.tzh_typecnt * 6 + self.tzh_leapcnt * 4 + self.tzh_charcnt := by
    rw [Tzfile.tzh_charcnt_end, Tzfile.tzh_charcnt_len, e4, hW, m5,
      Nat.mod_eq_of_lt (by omega)]
  rw [Tzfile.parse, hV, e1, e2, e3, e4, e5,
    slice?_eq_some_of (by omega) (by omega),
    slice?_eq_some_of (by omega) (by omega),
    slice?_eq_some_of (by omega) (by omega),
    slice?_eq_some_of (by omega) (by omega)]
  simp only [Option.some_bind]
  have s1 : 44 + self.tzh_timecnt * 4 - 44 = self.tzh_timecnt * 4 := by omega
  have s2 : 44 + self.tzh_timecnt * 5 - (44 + self.tzh_timecnt * 4) =
      self.tzh_timecnt := by omega
  have s3 : 44 + self.tzh_timecnt * 5 + self.tzh_typecnt * 6 -
      (44 + self.tzh_timecnt * 5) = self.tzh_typecnt * 6 := by omega
  have s4 : 44 + self.tzh_timecnt * 5 + self.tzh_typecnt * 6 +
      self.tzh_leapcnt * 4 + self.tzh_charcnt -
      (44 + self.tzh_timecnt * 5 + self.tzh_typecnt * 6 +
        self.tzh_leapcnt * 4) = self.tzh_charcnt := by omega
  rw [s1, s2, s3, s4, hutf]
  simp only [if_true, Option.some_bind]
  cases hsp : splitNull ((buffer.drop (44 + self.tzh_timecnt * 5 +
      self.tzh_typecnt * 6 + self.tzh_leapcnt * 4)).take self.tzh_charcnt) with
  | nil => exact absurd hsp (splitNull_ne_nil _)
  | cons x xs =>
    simp only [Option.some_bind]

/-- C6: when the declared sections fit in the buffer (and the
abbreviation range is valid UTF-8 so the decode completes), the decoded
transition-times sequence has exactly `timeCount` entries; entry `i` is
the 4-byte big-endian signed integer at offset `44 + 4·i` (the Unix
second count of the produced UTC instant), in stored order; and the
following `timeCount` bytes are returned verbatim as the
transition-type index sequence. -/
theorem C6_transition_times_decoded (self : Tzfile) (buffer : List UInt8)
    (hlen : V1_HEADER_END + self.tzh_timecnt * 5 + self.tzh_typecnt * 6 +
        self.tzh_leapcnt * 4 + self.tzh_charcnt ≤ buffer.length)
    (hcap : buffer.length < 2 ^ 63)
    (hutf : utf8Valid ((buffer.drop (V1_HEADER_END + self.tzh_timecnt * 5 +
        self.tzh_typecnt * 6 + self.tzh_leapcnt * 4)).take self.tzh_charcnt) = true) :
    ∃ tz, self.parse buffer = some tz ∧
      tz.tzh_timecnt_data.length = self.tzh_timecnt ∧
      (∀ i, i < self.tzh_timecnt →
        tz.tzh_timecnt_data[i]? =
          some (i32ofBytes ((buffer.drop (V1_HEADER_END + 4 * i)).take 4))) ∧
      tz.tzh_timecnt_indices =
        (buffer.drop (V1_HEADER_END + 4 * self.tzh_timecnt)).take
          self.tzh_timecnt := by
  have hV : V1_HEADER_END = 44 := rfl
  rw [hV] at hlen ⊢
  refine ⟨_, Tzfile.parse_eval self buffer (by rw [hV]; exact hlen) hcap hutf,
    ?_, ?_, ?_⟩
  · simp only [List.length_map]
    rw [hV, chunksExact_length (by norm_num), List.length_take, List.length_drop]
    omega
  · intro i hi
    simp only [List.getElem?_map]
    rw [hV, chunksExact_getElem? (by norm_num)
      (by rw [List.length_take, List.length_drop]; omega)]
    rw [List.drop_take, List.drop_drop, List.take_take]
    have h1 : min 4 (self.tzh_timecnt * 4 - i * 4) = 4 := by omega
    have h2 : 44 + i * 4 = 44 + 4 * i := by ring
    rw [h1, h2]
    rfl
  · simp only [hV]
    have h3 : self.tzh_timecnt * 4 = 4 * self.tzh_timecnt := by ring
    rw [h3]

/-- Witness for `C6_transition_times_decoded`: `timeCount = 1` with the
single transition-time record `00 00 00 07` followed by the index byte
`09`. -/
theorem C6_transition_times_decoded_witness :
    ∃ tz, Tzfile.parse ⟨MAGIC, 50, 0, 0, 0, 1, 0, 0⟩
        (List.replicate 44 0 ++ [0, 0, 0, 7, 9]) = some tz ∧
      tz.tzh_timecnt_data.length = 1 ∧
      (∀ i, i < 1 →
        tz.tzh_timecnt_data[i]? =
          some (i32ofBytes (((List.replicate 44 0 ++ [0, 0, 0, 7, 9] :
            List UInt8).drop (V1_HEADER_END + 4 * i)).take 4))) ∧
      tz.tzh_timecnt_indices =
        ((List.replicate 44 0 ++ [0, 0, 0, 7, 9] : List UInt8).drop
          (V1_HEADER_END + 4 * 1)).take 1 :=
  C6_transition_times_decoded ⟨MAGIC, 50, 0, 0, 0, 1, 0, 0⟩
    (List.replicate 44 0 ++ [0, 0, 0, 7, 9]) (by decide) (by decide) (by decide)
